import Mathlib

/-!
# Verification of the scanbot scan pipeline (`src/bot.py`)

Shallow embedding of the Discord scan bot's core pipeline: per-endpoint
status checks (`check_server`), batched geolocation (`batch_get_locations`),
the flag transform (`get_flag_emoji`), aggregation/sorting/rendering, the
report chunker, and the `check` command's control flow with its single-flight
lock.  Network I/O is modelled by explicit outcome oracles; observable
actions (messages sent, presence updates, requests, sleeps, lock
acquisition/release) are recorded as an event trace.  Wall-clock timing
(`time.time()`-derived strings) is opaque and modelled by string parameters.
-/

namespace Scanbot

/-- One observable action of the bot, in program order. -/
inductive Event where
  | send (msg : String)
  | acquire
  | release
  | presence (status : String)
  | statusRequest (ip : String)
  | geoRequest (batch : List String)
  | sleep (ms : Nat)
deriving DecidableEq, Repr

/-- One entry of `players.list` in the status API's JSON body
(`name_clean` / `name` fields; `none` models a missing or JSON-null field). -/
structure PlayerEntry where
  name_clean : Option String
  name : Option String
deriving DecidableEq, Repr

/-- The `players` object of the status API's JSON body.  The numeric fields
carry the defaults the code applies on access (`players_data.get('online', 0)`,
`players_data.get('max', 0)`); a missing `list` is the empty list (both are
treated identically by the code, which only iterates it). -/
structure PlayersData where
  online : Nat
  max : Nat
  list : List PlayerEntry
deriving DecidableEq, Repr

/-- The status API's parsed JSON body, restricted to the fields the bot reads.
`version_name_clean` and `motd_clean` keep their missing/`null` case as `none`
because the code applies defaults (`'Unknown'`, `''`) only at extraction. -/
structure MCData where
  online : Bool
  players : PlayersData
  version_name_clean : Option String
  motd_clean : Option String
deriving DecidableEq, Repr

/-- Outcome of one HTTP GET to the status API: a raised exception
(connection error, timeout — caught by the bare `except`), or a response
with a status code and a body; `body = none` models a body on which
`response.json()` raises (also caught). -/
inductive ReqOutcome where
  | netError
  | response (status : Nat) (body : Option MCData)
deriving DecidableEq, Repr

/-- Embeds `check_server` (bot.py lines 33–50): returns `(ip, data)` iff the request
produced a 200 response whose parsed body has `online` truthy; every error
path falls through to `None`. -/
def check_server (outcome : ReqOutcome) (ip : String) : Option (String × MCData) :=
  match outcome with
  | .netError => none
  | .response status body =>
    if status = 200 then
      match body with
      | none => none
      | some data => if data.online then some (ip, data) else none
    else none

/-- One entry of the geolocation batch response
(`{"query": ..., "countryCode": ...}`; `none` = missing/JSON-null field). -/
structure GeoEntry where
  query : Option String
  countryCode : Option String
deriving DecidableEq, Repr

/-- Outcome of one POST to the geolocation batch API; `body = none` models a
200 response on which `resp.json()` raises. -/
inductive GeoOutcome where
  | netError
  | response (status : Nat) (body : Option (List GeoEntry))
deriving DecidableEq, Repr

/-- Whether the `try` block around one geo batch raises (skipping that
iteration's trailing sleep): a network error always raises; a 200 response
with an unparseable body raises inside `resp.json()`; a non-200 response
raises nothing (the body is never parsed). -/
def geoRaises : GeoOutcome → Bool
  | .netError => true
  | .response status body => status == 200 && body == none

/-- The location dictionary built by `batch_get_locations`: insertion-ordered
key/value pairs, value `none` modelling a stored JSON-null `countryCode`. -/
abbrev LocMap := List (String × Option String)

/-- Python dict assignment `locations[ip] = country`: overwrite in place if
the key exists, else append. -/
def dictSet (m : LocMap) (k : String) (v : Option String) : LocMap :=
  if m.any (fun p => p.1 == k) then
    m.map (fun p => if p.1 == k then (k, v) else p)
  else m ++ [(k, v)]

/-- Embeds `location_map.get(ip)`: `none` for a missing key, and a stored
JSON-null value also reads back as `none` (exactly Python's observable). -/
def dictGet (m : LocMap) (k : String) : Option String :=
  match m.find? (fun p => p.1 == k) with
  | some p => p.2
  | none => none

/-- Processing of one successful geo batch body (bot.py lines 73–79):
for each entry, if its `query` field is truthy (present and non-empty),
store its `countryCode` under it. -/
def applyGeoEntries (acc : LocMap) (entries : List GeoEntry) : LocMap :=
  entries.foldl (fun m e =>
    match e.query with
    | some ip => if ip = "" then m else dictSet m ip e.countryCode
    | none => m) acc

/-- Embeds `[ips[i:i + 100] for i in range(0, len(ips), 100)]`. -/
def chunksOf100 (l : List String) : List (List String) :=
  if l = [] then []
  else l.take 100 :: chunksOf100 (l.drop 100)
termination_by l.length
decreasing_by
  simp only [List.length_drop]
  exact Nat.sub_lt (List.length_pos.mpr (by assumption)) (by omega)

/-- One iteration of the geo batch loop (bot.py lines 64–89): the POST is
always attempted; on an exception the rest of the `try` block (result
processing and the conditional sleep) is skipped and the loop continues;
a non-200 response adds nothing but still sleeps; `many` is
`len(chunks) > 1`. -/
def geoBatchStep (many : Bool) (outcome : GeoOutcome) (chunk : List String)
    (m : LocMap) : List Event × LocMap :=
  match outcome with
  | .netError => ([Event.geoRequest chunk], m)
  | .response status body =>
    if status = 200 then
      match body with
      | none => ([Event.geoRequest chunk], m)
      | some entries =>
        ([Event.geoRequest chunk] ++ (if many then [Event.sleep 2000] else []),
         applyGeoEntries m entries)
    else
      ([Event.geoRequest chunk] ++ (if many then [Event.sleep 2000] else []), m)

/-- The `for chunk in chunks` loop of `batch_get_locations`; the oracle `geo`
gives the outcome of the `i`-th batch request. -/
def geoLoop (geo : Nat → GeoOutcome) (many : Bool) :
    List (List String) → Nat → LocMap → List Event × LocMap
  | [], _, m => ([], m)
  | c :: rest, i, m =>
    let step := geoBatchStep many (geo i) c m
    let tail := geoLoop geo many rest (i + 1) step.2
    (step.1 ++ tail.1, tail.2)

/-- Embeds `batch_get_locations` (bot.py lines 52–91): empty input returns the empty
dict with no requests; otherwise one POST per 100-element chunk, with a 2 s
sleep after each non-raising batch when there is more than one chunk. -/
def batch_get_locations (geo : Nat → GeoOutcome) (ips : List String) :
    List Event × LocMap :=
  if ips = [] then ([], [])
  else
    let chunks := chunksOf100 ips
    geoLoop geo (decide (chunks.length > 1)) chunks 0 []

/-- Per-letter step of `get_flag_emoji`: `chr(ord(c.upper()) + 127397)`
(upper-casing agrees with Python on the ASCII letters region codes use). -/
def flagChar (c : Char) : Char := Char.ofNat (c.toUpper.toNat + 127397)

/-- Embeds `get_flag_emoji` (bot.py lines 21–24): a falsy code (`None` or `""`)
yields the white-flag placeholder, otherwise each letter is shifted into the
regional-indicator block. -/
def get_flag_emoji : Option String → String
  | none => "🏳️"
  | some code =>
    if code = "" then "🏳️" else String.mk (code.data.map flagChar)

/-- Python `p.get('name_clean') or p.get('name')`: the left value unless it
is falsy (`None` or `""`). -/
def pyOrStr : Option String → Option String → Option String
  | some s, b => if s = "" then b else some s
  | none, b => b

/-- The player-name extraction loop (bot.py lines 171–175): for each entry
take `name_clean or name`, and keep it only if truthy.  (The guard
`if players_data.get('list'):` is behaviourally the identity here: a missing
or empty list produces no names either way.) -/
def extractPlayerNames (l : List PlayerEntry) : List String :=
  l.filterMap (fun p =>
    match pyOrStr p.name_clean p.name with
    | some s => if s = "" then none else some s
    | none => none)

/-- One element of `final_results` (bot.py lines 183–189). -/
structure FinalResult where
  ip : String
  text : String
  players : Nat
  players_names : String
  motd : String
deriving DecidableEq, Repr

/-- Building one `final_results` entry from a live server (bot.py
lines 159–189): extract occupancy, version (default `'Unknown'`), motd
(strip, collapse newlines to two spaces), the player-name list, and the
flag from the location dict. -/
def mkResult (locMap : LocMap) (server : String × MCData) : FinalResult :=
  let ip := server.1
  let data := server.2
  let players_online := data.players.online
  let players_max := data.players.max
  let version := data.version_name_clean.getD "Unknown"
  let motd := ((data.motd_clean.getD "").trim).replace "\n" "  "
  let player_names := extractPlayerNames data.players.list
  let players_str := String.intercalate ", " player_names
  let country_code := dictGet locMap ip
  let flag := get_flag_emoji country_code
  { ip := ip
    text := flag ++ " **" ++ ip ++ "** | Players: " ++ toString players_online
      ++ "/" ++ toString players_max ++ " | Ver: " ++ version
    players := players_online
    players_names := players_str
    motd := motd }

/-- Embeds `populated = [r for r in final_results if r is populated]` (bot.py line 200). -/
def populatedOf (rs : List FinalResult) : List FinalResult :=
  rs.filter (fun r => decide (0 < r.players))

/-- Embeds `empty = [r for r in final_results if r is empty]` (bot.py line 201). -/
def emptyOf (rs : List FinalResult) : List FinalResult :=
  rs.filter (fun r => r.players == 0)

/-- Embeds `populated.sort(key=..., reverse=True)` (bot.py line 202): CPython's
sort is stable and `reverse=True` reverses the comparison, not the list, so
this is a stable descending sort — embedded as the stable `mergeSort` under
the descending-by-occupancy total preorder. -/
def sortPopulated (rs : List FinalResult) : List FinalResult :=
  (populatedOf rs).mergeSort (fun a b => decide (b.players ≤ a.players))

/-- Embeds `format_entry` (bot.py lines 206–210): primary line plus optional
indented motd and player-name sub-lines (one list element, internal
newlines included). -/
def format_entry (s : FinalResult) : String :=
  let text := s.text
  let text := if s.motd ≠ "" then text ++ "\n   └ 📝 " ++ s.motd else text
  if s.players_names ≠ "" then text ++ "\n   └ 👤 **Users:** " ++ s.players_names
  else text

/-- The `final_lines` construction (bot.py lines 204–219): section header,
entries and a separating blank line for the populated partition, then a
section header and entries for the empty partition; each only if non-empty. -/
def final_lines (results : List FinalResult) : List String :=
  let populated := sortPopulated results
  let emptyRs := emptyOf results
  (if populated ≠ [] then
      ("**🟢 Servers with Players (" ++ toString populated.length ++ "):**")
        :: (populated.map format_entry ++ [""])
    else [])
  ++ (if emptyRs ≠ [] then
      ("**⚪ Online (Empty) Servers (" ++ toString emptyRs.length ++ "):**")
        :: emptyRs.map format_entry
    else [])

/-- The chunk-accumulation loop (bot.py lines 227–232): returns the flushed
chunks and the final accumulator.  A line that would push the accumulator
past `limit` flushes it first; the line then starts the fresh accumulator. -/
def chunkLoop (limit : Nat) (chunk : String) : List String → List String × String
  | [] => ([], chunk)
  | line :: rest =>
    if chunk.length + line.length + 1 > limit then
      let r := chunkLoop limit (line ++ "\n") rest
      (chunk :: r.1, r.2)
    else
      chunkLoop limit (chunk ++ line ++ "\n") rest

/-- The full chunked report (bot.py lines 226–238): run the loop seeded with
the header, then append the footer to the last accumulator if it fits the
limit check, else emit the footer as its own final message. -/
def emitReport (limit : Nat) (header footer : String) (lines : List String) :
    List String :=
  let r := chunkLoop limit header lines
  if r.2.length + footer.length + 1 > limit then r.1 ++ [r.2, footer]
  else r.1 ++ [r.2 ++ footer]

/-- The footer (bot.py line 221); the time and speed renderings are opaque
strings since they come from wall-clock floats. -/
def mkFooter (time_str speed_str : String) : String :=
  "\n⏱️ **Time:** " ++ time_str ++ "\n⚡ **Speed:** " ++ speed_str ++ " IPs/sec"

/-- The report header carried by the first chunk (bot.py line 226). -/
def reportHeader : String := "**📊 Scan Complete!**\n"

/-- The output step (bot.py lines 223–238): a "no working servers" message
when there are no lines, else the chunked report. -/
def outputEvents (time_str speed_str : String) (results : List FinalResult) :
    List Event :=
  let footer := mkFooter time_str speed_str
  let lines := final_lines results
  if lines = [] then [Event.send ("❌ No working servers found.\n" ++ footer)]
  else (emitReport 1900 reportHeader footer lines).map Event.send

/-- The environment of one scan: per-endpoint status outcomes, per-batch geo
outcomes, and the opaque wall-clock renderings. -/
structure World where
  probe : String → ReqOutcome
  geo : Nat → GeoOutcome
  time_str : String
  speed_str : String

/-- The dispatch loop (bot.py lines 135–142): presence update every 50th
index, one task creation (= one status request) per endpoint, 0.2 s pacing
sleep after each. -/
def dispatchEvents (total : Nat) : Nat → List String → List Event
  | _, [] => []
  | index, ip :: rest =>
    (if index % 50 = 0 then
        [Event.presence ("Scanning " ++ toString index ++ "/" ++ toString total
          ++ " (" ++ ip ++ ")...")]
      else [])
    ++ [Event.statusRequest ip, Event.sleep 200]
    ++ dispatchEvents total (index + 1) rest

/-- Embeds `valid_servers` (bot.py lines 145–148): `asyncio.gather` preserves task
order, so the raw results align positionally with the input; non-`None`
results are kept in order. -/
def valid_servers (probe : String → ReqOutcome) (ips : List String) :
    List (String × MCData) :=
  (ips.map (fun ip => check_server (probe ip) ip)).filterMap id

/-- Embeds `final_results` (bot.py lines 154–189): live servers joined with the
geo dict built from exactly their IPs. -/
def final_results (w : World) (ips : List String) : List FinalResult :=
  let valid := valid_servers w.probe ips
  let locMap := (batch_get_locations w.geo (valid.map (fun s => s.1))).2
  valid.map (mkResult locMap)

/-- The event trace of one full scan (bot.py lines 126–240), from the start
notice through dispatch, collection, geo enrichment, output, and the final
presence reset. -/
def scanEvents (w : World) (ips : List String) : List Event :=
  let total := ips.length
  let valid := valid_servers w.probe ips
  let geoResult := batch_get_locations w.geo (valid.map (fun s => s.1))
  [Event.send ("🚀 **Scan started** on " ++ toString total ++ " IPs...")]
  ++ dispatchEvents total 0 ips
  ++ [Event.presence "Finalizing MC scan...", Event.presence "Resolving locations..."]
  ++ geoResult.1
  ++ outputEvents w.time_str w.speed_str (valid.map (mkResult geoResult.2))
  ++ [Event.presence "Idle | Waiting for IPs"]

/-- One message attachment; `content = none` models `attachment.read()` or
the UTF-8 decode raising (caught by the `try`/`except` at lines 115–120). -/
structure Attachment where
  filename : String
  content : Option String
deriving DecidableEq, Repr

/-- The invoking message, reduced to what `check` reads. -/
structure Msg where
  attachments : List Attachment
deriving DecidableEq, Repr

/-- Embeds `[line.strip() for line in content.splitlines() if line.strip()]`
(bot.py line 117). -/
def parseIps (content : String) : List String :=
  ((content.splitOn "\n").map String.trim).filter (fun l => l ≠ "")

/-- The body of the `check` command under the lock (bot.py lines 105–240):
input validation with early returns, then the scan.  (The read-error message
interpolates the exception's text; it is modelled by its fixed prefix.) -/
def checkBody (w : World) (msg : Msg) : List Event :=
  match msg.attachments with
  | [] => [Event.send "❌ Please attach a `.txt` file."]
  | attachment :: _ =>
    if ¬ attachment.filename.endsWith ".txt" then
      [Event.send "❌ Must be a `.txt` file."]
    else
      match attachment.content with
      | none => [Event.send "❌ Error reading file: <exception>"]
      | some content =>
        let ips := parseIps content
        if ips = [] then [Event.send "⚠️ File is empty."]
        else scanEvents w ips

/-- The `check` command (bot.py lines 99–240): busy test first (no
acquisition), else `async with scan_lock:` acquires the lock, runs the body,
and releases on every exit path — the early validation returns included. -/
def check (lockedAtEntry : Bool) (w : World) (msg : Msg) : List Event :=
  if lockedAtEntry then
    [Event.send "⏳ **Bot is busy.** Another scan is currently in progress."]
  else Event.acquire :: (checkBody w msg ++ [Event.release])

/-- An invocation whose input fails validation: no attachment, a non-`.txt`
attachment, an unreadable file, or a file with no non-blank lines. -/
def InvalidInput (msg : Msg) : Prop :=
  msg.attachments = [] ∨
  ∃ a rest, msg.attachments = a :: rest ∧
    (¬ a.filename.endsWith ".txt" ∨ a.content = none ∨
      ∃ c, a.content = some c ∧ parseIps c = [])

/-- Network activity: a status-API or geolocation request. -/
def isNetworkEvent : Event → Bool
  | .statusRequest _ => true
  | .geoRequest _ => true
  | _ => false

/-- The four user-facing validation error messages. -/
def validationErrorMsgs : List String :=
  ["❌ Please attach a `.txt` file.", "❌ Must be a `.txt` file.",
   "❌ Error reading file: <exception>", "⚠️ File is empty."]

/-! ## Chunker combinators and lemmas -/

/-- Concatenation of a list of chunk contents, in order. -/
def concatStrings : List String → String
  | [] => ""
  | s :: rest => s ++ concatStrings rest

/-- Rendering of a consecutive run of display lines, each with its trailing
newline, exactly as the accumulator builds it. -/
def renderSeg (seg : List String) : String :=
  concatStrings (seg.map (fun l => l ++ "\n"))

/-- The flushed chunks corresponding to a segmentation of the line list into
consecutive runs: the first chunk carries the seed accumulator (the report
header), every later chunk is a whole rendered run — no line is split. -/
def chunksFrom (first : String) : List (List String) → List String
  | [] => []
  | s :: rest => (first ++ renderSeg s) :: rest.map renderSeg

/-- Seed content left in the final accumulator: the seed itself when nothing
was flushed, empty otherwise. -/
def accSeed (chunk : String) : List (List String) → String
  | [] => chunk
  | _ :: _ => ""

theorem concatStrings_append (l₁ l₂ : List String) :
    concatStrings (l₁ ++ l₂) = concatStrings l₁ ++ concatStrings l₂ := by
  induction l₁ with
  | nil => simp [concatStrings]
  | cons s rest ih => simp [concatStrings, ih, String.append_assoc]

theorem renderSeg_cons (line : String) (seg : List String) :
    renderSeg (line :: seg) = (line ++ "\n") ++ renderSeg seg := rfl

theorem chunkLoop_concat (limit : Nat) :
    ∀ (lines : List String) (chunk : String),
      concatStrings (chunkLoop limit chunk lines).1 ++ (chunkLoop limit chunk lines).2
        = chunk ++ renderSeg lines := by
  intro lines
  induction lines with
  | nil =>
    intro chunk
    simp [chunkLoop, renderSeg, concatStrings]
  | cons line rest ih =>
    intro chunk
    by_cases h : chunk.length + line.length + 1 > limit
    · simp only [chunkLoop, if_pos h, concatStrings]
      rw [String.append_assoc, ih (line ++ "\n"), renderSeg_cons, String.append_assoc]
    · simp only [chunkLoop, if_neg h]
      rw [ih (chunk ++ line ++ "\n"), renderSeg_cons]
      simp [String.append_assoc]

theorem chunkLoop_bound (limit : Nat) :
    ∀ (lines : List String) (chunk : String),
      chunk.length ≤ limit → (∀ l ∈ lines, l.length + 1 ≤ limit) →
      (∀ c ∈ (chunkLoop limit chunk lines).1, c.length ≤ limit) ∧
      (chunkLoop limit chunk lines).2.length ≤ limit := by
  have hn : ("\n" : String).length = 1 := rfl
  intro lines
  induction lines with
  | nil =>
    intro chunk hc _
    exact ⟨by simp [chunkLoop], by simpa [chunkLoop] using hc⟩
  | cons line rest ih =>
    intro chunk hc hl
    have hline : line.length + 1 ≤ limit := hl line (List.mem_cons_self _ _)
    have hrest : ∀ l ∈ rest, l.length + 1 ≤ limit :=
      fun l hm => hl l (List.mem_cons_of_mem _ hm)
    by_cases h : chunk.length + line.length + 1 > limit
    · have hnew : (line ++ "\n").length ≤ limit := by
        rw [String.length_append, hn]; omega
      obtain ⟨h1, h2⟩ := ih (line ++ "\n") hnew hrest
      simp only [chunkLoop, if_pos h]
      refine ⟨?_, h2⟩
      intro c hmem
      rcases List.mem_cons.mp hmem with rfl | hmem
      · exact hc
      · exact h1 c hmem
    · have hnew : (chunk ++ line ++ "\n").length ≤ limit := by
        rw [String.length_append, String.length_append, hn]; omega
      simpa only [chunkLoop, if_neg h] using ih (chunk ++ line ++ "\n") hnew hrest

theorem chunkLoop_structure (limit : Nat) :
    ∀ (lines : List String) (chunk : String),
      ∃ segs lastSeg, segs.flatten ++ lastSeg = lines ∧
        (chunkLoop limit chunk lines).1 = chunksFrom chunk segs ∧
        (chunkLoop limit chunk lines).2 = accSeed chunk segs ++ renderSeg lastSeg := by
  intro lines
  induction lines with
  | nil =>
    intro chunk
    exact ⟨[], [], rfl, rfl, by simp [chunkLoop, accSeed, renderSeg, concatStrings]⟩
  | cons line rest ih =>
    intro chunk
    by_cases h : chunk.length + line.length + 1 > limit
    · obtain ⟨segs, lastSeg, hjoin, h1, h2⟩ := ih (line ++ "\n")
      cases segs with
      | nil =>
        refine ⟨[[]], line :: lastSeg, ?_, ?_, ?_⟩
        · simp only [List.flatten_nil, List.nil_append, List.flatten_cons] at hjoin ⊢
          simp [hjoin]
        · simp only [chunkLoop, if_pos h, h1, chunksFrom, List.map_nil]
          simp [renderSeg, concatStrings]
        · simp only [chunkLoop, if_pos h, h2, accSeed, renderSeg_cons]
          simp [accSeed, renderSeg, concatStrings]
      | cons s₀ rest' =>
        refine ⟨[] :: (line :: s₀) :: rest', lastSeg, ?_, ?_, ?_⟩
        · simp only [List.flatten_cons, List.nil_append, List.cons_append,
            List.append_assoc] at hjoin ⊢
          simp [hjoin]
        · simp only [chunkLoop, if_pos h, h1, chunksFrom, List.map_cons,
            renderSeg_cons]
          simp [renderSeg, concatStrings, String.append_assoc]
        · simp only [chunkLoop, if_pos h, h2, accSeed]
    · obtain ⟨segs, lastSeg, hjoin, h1, h2⟩ := ih (chunk ++ line ++ "\n")
      cases segs with
      | nil =>
        refine ⟨[], line :: lastSeg, ?_, ?_, ?_⟩
        · simp only [List.flatten_nil, List.nil_append] at hjoin ⊢
          simp [hjoin]
        · simpa only [chunkLoop, if_neg h] using h1
        · simp only [chunkLoop, if_neg h, h2, accSeed, renderSeg_cons]
          simp [String.append_assoc]
      | cons s₀ rest' =>
        refine ⟨(line :: s₀) :: rest', lastSeg, ?_, ?_, ?_⟩
        · simp only [List.flatten_cons, List.cons_append, List.append_assoc] at hjoin ⊢
          simp [hjoin]
        · simp only [chunkLoop, if_neg h, h1, chunksFrom, renderSeg_cons]
          simp [String.append_assoc]
        · simp only [chunkLoop, if_neg h, h2, accSeed]

/-- **C2**: for display lines each individually under the 1900-character limit
(line plus trailing newline), every emitted chunk — the header-carrying first
chunk included — stays within 1900 characters, and no line is split: the
flushed chunks are exactly a segmentation of the line list into consecutive
whole runs, the accumulator being flushed before a line that would overflow
it and that line starting the next accumulator. -/
theorem chunker_respects_limit_and_line_atomicity
    (footer : String) (lines : List String)
    (hlines : ∀ l ∈ lines, l.length + 1 ≤ 1900)
    (hfooter : footer.length ≤ 1900) :
    (∀ c ∈ emitReport 1900 reportHeader footer lines, c.length ≤ 1900) ∧
    ∃ segs lastSeg, segs.flatten ++ lastSeg = lines ∧
      (chunkLoop 1900 reportHeader lines).1 = chunksFrom reportHeader segs ∧
      (chunkLoop 1900 reportHeader lines).2
        = accSeed reportHeader segs ++ renderSeg lastSeg := by
  have hh : reportHeader.length ≤ 1900 := by decide
  obtain ⟨h1, h2⟩ := chunkLoop_bound 1900 lines reportHeader hh hlines
  refine ⟨?_, chunkLoop_structure 1900 lines reportHeader⟩
  intro c hc
  simp only [emitReport] at hc
  by_cases hcase :
      (chunkLoop 1900 reportHeader lines).2.length + footer.length + 1 > 1900
  · rw [if_pos hcase] at hc
    rcases List.mem_append.mp hc with hm | hm
    · exact h1 c hm
    · rcases List.mem_cons.mp hm with rfl | hm
      · exact h2
      · rcases List.mem_cons.mp hm with rfl | hm
        · exact hfooter
        · exact absurd hm (List.not_mem_nil _)
  · rw [if_neg hcase] at hc
    rcases List.mem_append.mp hc with hm | hm
    · exact h1 c hm
    · rcases List.mem_cons.mp hm with rfl | hm
      · rw [String.length_append]; omega
      · exact absurd hm (List.not_mem_nil _)

/-- **C2** witness: the theorem applied to a concrete line list and footer. -/
theorem chunker_respects_limit_and_line_atomicity_witness :
    (∀ c ∈ emitReport 1900 reportHeader "F" ["a", "b"], c.length ≤ 1900) ∧
    ∃ segs lastSeg, segs.flatten ++ lastSeg = ["a", "b"] ∧
      (chunkLoop 1900 reportHeader ["a", "b"]).1 = chunksFrom reportHeader segs ∧
      (chunkLoop 1900 reportHeader ["a", "b"]).2
        = accSeed reportHeader segs ++ renderSeg lastSeg :=
  chunker_respects_limit_and_line_atomicity "F" ["a", "b"]
    (by decide) (by decide)

/-- **C3**: concatenating all emitted chunks in order reproduces the header,
then the exact input line sequence (each line with its newline), then the
trailing summary; the summary is appended to the last accumulator when the
limit check passes, else emitted as its own final chunk. -/
theorem chunker_concat_reproduces_lines_and_footer
    (limit : Nat) (header footer : String) (lines : List String) :
    concatStrings (emitReport limit header footer lines)
        = header ++ renderSeg lines ++ footer ∧
    emitReport limit header footer lines
      = (chunkLoop limit header lines).1 ++
          (if (chunkLoop limit header lines).2.length + footer.length + 1 > limit
           then [(chunkLoop limit header lines).2, footer]
           else [(chunkLoop limit header lines).2 ++ footer]) := by
  constructor
  · simp only [emitReport]
    split
    · rw [concatStrings_append]
      simp only [concatStrings, String.append_empty]
      rw [← String.append_assoc, chunkLoop_concat limit lines header]
    · rw [concatStrings_append]
      simp only [concatStrings, String.append_empty]
      rw [← String.append_assoc, chunkLoop_concat limit lines header]
  · simp only [emitReport]
    split
    · rfl
    · rfl

/-! ## Flag transform (C8) -/

/-- **C8**: the region-code-to-flag transform is a pure function of its
argument: `"US"` maps to the fixed two-regional-indicator string, an absent
or empty code maps to the generic placeholder, and a two-letter code is
mapped letter by letter through the fixed-offset transform `flagChar`,
independently per letter. -/
theorem flag_transform_deterministic :
    get_flag_emoji (some "US") = "🇺🇸" ∧
    get_flag_emoji none = "🏳️" ∧
    get_flag_emoji (some "") = "🏳️" ∧
    ∀ c₁ c₂ : Char,
      get_flag_emoji (some (String.mk [c₁, c₂]))
        = String.mk [flagChar c₁, flagChar c₂] := by
  refine ⟨by decide, rfl, rfl, fun c₁ c₂ => ?_⟩
  have hne : String.mk [c₁, c₂] ≠ "" := by
    intro hcontra
    have hd := congrArg String.data hcontra
    simp at hd
  simp [get_flag_emoji, hne]

/-! ## Player-name extraction (C10) -/

/-- Modelled from the claim's words, as the reference for the rendering
refinement: keep the clean name when it is a non-empty string, else the raw
name when it is a non-empty string, else skip the entry. -/
def pickNameSpec (p : PlayerEntry) : Option String :=
  match p.name_clean with
  | some c =>
    if c ≠ "" then some c
    else
      match p.name with
      | some t => if t ≠ "" then some t else none
      | none => none
  | none =>
    match p.name with
    | some t => if t ≠ "" then some t else none
    | none => none

/-- **C10**: the occupant-name list is exactly the in-order selection that
takes each entry's clean name when non-empty, else its raw name when
non-empty, and drops the entry otherwise — an empty-string clean name falls
back to the raw name — and no empty string ever reaches the comma-joined
rendering. -/
theorem player_name_fallback_rendering :
    (∀ l : List PlayerEntry, extractPlayerNames l = l.filterMap pickNameSpec) ∧
    (∀ (l : List PlayerEntry) (s : String), s ∈ extractPlayerNames l → s ≠ "") := by
  have hfun : ∀ p : PlayerEntry,
      (match pyOrStr p.name_clean p.name with
        | some s => if s = "" then none else some s
        | none => none) = pickNameSpec p := by
    intro p
    rcases p with ⟨nc, n⟩
    cases nc <;> cases n <;>
      simp only [pyOrStr, pickNameSpec] <;> split_ifs <;> simp_all
  constructor
  · intro l
    exact congrArg (fun f => List.filterMap f l) (funext hfun)
  · intro l s hs
    obtain ⟨p, _, hps⟩ := List.mem_filterMap.mp hs
    revert hps
    cases hpo : pyOrStr p.name_clean p.name with
    | none => intro hps; cases hps
    | some t =>
      by_cases ht : t = ""
      · simp [ht]
      · intro hps
        simp [ht] at hps
        subst hps
        exact ht

/-- **C10** witness: the theorem applied to a concrete entry list in which an
empty-string clean name falls back to the raw name. -/
theorem player_name_fallback_rendering_witness :
    extractPlayerNames [⟨some "", some "raw"⟩]
        = [(⟨some "", some "raw"⟩ : PlayerEntry)].filterMap pickNameSpec ∧
    "raw" ∈ extractPlayerNames [⟨some "", some "raw"⟩] ∧ "raw" ≠ "" :=
  ⟨player_name_fallback_rendering.1 _, by decide,
   player_name_fallback_rendering.2 [⟨some "", some "raw"⟩] "raw" (by decide)⟩

/-! ## Status checks and the scan trace (C7) -/

/-- Status-API request recogniser on events. -/
def statusReqIp? : Event → Option String
  | .statusRequest ip => some ip
  | _ => none

/-- Geolocation request recogniser on events. -/
def geoReqBatch? : Event → Option (List String)
  | .geoRequest b => some b
  | _ => none

theorem check_server_eq_some :
    ∀ (o : ReqOutcome) (ip : String) (r : String × MCData),
      check_server o ip = some r → r.1 = ip ∧ r.2.online = true := by
  intro o ip r h
  cases o with
  | netError => simp [check_server] at h
  | response status body =>
    cases body with
    | none =>
      simp only [check_server] at h
      split at h <;> cases h
    | some data =>
      simp only [check_server] at h
      split at h
      · by_cases ho : data.online = true
        · rw [if_pos ho] at h
          obtain rfl := Option.some.inj h
          exact ⟨rfl, ho⟩
        · rw [if_neg ho] at h
          cases h
      · cases h

theorem dispatchEvents_reqs (total : Nat) :
    ∀ (ips : List String) (i : Nat),
      (dispatchEvents total i ips).filterMap statusReqIp? = ips := by
  intro ips
  induction ips with
  | nil => intro i; simp [dispatchEvents]
  | cons ip rest ih =>
    intro i
    by_cases h : i % 50 = 0 <;>
      simp [dispatchEvents, h, statusReqIp?, ih]

theorem geoBatchStep_fst (many : Bool) (o : GeoOutcome) (c : List String)
    (m : LocMap) :
    (geoBatchStep many o c m).1
      = Event.geoRequest c ::
          (if geoRaises o = false ∧ many = true then [Event.sleep 2000]
           else []) := by
  cases o with
  | netError => simp [geoBatchStep, geoRaises]
  | response status body =>
    by_cases hs : status = 200
    · cases body with
      | none => simp [geoBatchStep, geoRaises, hs]
      | some entries => cases many <;> simp [geoBatchStep, geoRaises, hs]
    · cases many <;> simp [geoBatchStep, geoRaises, hs]

theorem geoLoop_events (geo : Nat → GeoOutcome) (many : Bool) :
    ∀ (chunks : List (List String)) (i : Nat) (m : LocMap),
      ∀ e ∈ (geoLoop geo many chunks i m).1,
        (∃ b, e = Event.geoRequest b) ∨ ∃ ms, e = Event.sleep ms := by
  intro chunks
  induction chunks with
  | nil => intro i m e he; simp [geoLoop] at he
  | cons c rest ih =>
    intro i m e he
    simp only [geoLoop, List.mem_append] at he
    rcases he with he | he
    · rw [geoBatchStep_fst] at he
      rcases List.mem_cons.mp he with rfl | he
      · exact Or.inl ⟨c, rfl⟩
      · by_cases hc : geoRaises (geo i) = false ∧ many = true
        · rw [if_pos hc] at he
          rw [List.mem_singleton.mp he]
          exact Or.inr ⟨2000, rfl⟩
        · rw [if_neg hc] at he
          exact absurd he (List.not_mem_nil _)
    · exact ih (i + 1) _ e he

theorem batch_events_kinds (geo : Nat → GeoOutcome) (ips : List String) :
    ∀ e ∈ (batch_get_locations geo ips).1,
      (∃ b, e = Event.geoRequest b) ∨ ∃ ms, e = Event.sleep ms := by
  intro e he
  by_cases h : ips = []
  · simp [batch_get_locations, h] at he
  · simp only [batch_get_locations, if_neg h] at he
    exact geoLoop_events _ _ _ _ _ e he

theorem outputEvents_sends (t s : String) (rs : List FinalResult) :
    ∀ e ∈ outputEvents t s rs, ∃ m, e = Event.send m := by
  intro e he
  simp only [outputEvents] at he
  split at he
  · exact ⟨_, List.mem_singleton.mp he⟩
  · obtain ⟨m, _, rfl⟩ := List.mem_map.mp he
    exact ⟨m, rfl⟩

theorem scanEvents_status_reqs (w : World) (ips : List String) :
    (scanEvents w ips).filterMap statusReqIp? = ips := by
  have hgeo : ∀ e ∈ (batch_get_locations w.geo
      ((valid_servers w.probe ips).map (fun s => s.1))).1,
      statusReqIp? e = none := by
    intro e he
    rcases batch_events_kinds _ _ e he with ⟨b, rfl⟩ | ⟨ms, rfl⟩ <;> rfl
  have hout : ∀ e ∈ outputEvents w.time_str w.speed_str
      ((valid_servers w.probe ips).map (mkResult (batch_get_locations w.geo
        ((valid_servers w.probe ips).map (fun s => s.1))).2)),
      statusReqIp? e = none := by
    intro e he
    obtain ⟨m, rfl⟩ := outputEvents_sends _ _ _ e he
    rfl
  simp only [scanEvents, List.filterMap_append]
  rw [dispatchEvents_reqs, List.filterMap_eq_nil_iff.mpr hgeo,
    List.filterMap_eq_nil_iff.mpr hout]
  simp [statusReqIp?]

/-- **C7**: a status check returns `None` on a network error, a non-200
response, an unparseable body, or a body reporting the endpoint not live;
any `Some` result echoes the probed endpoint and is live; and the scan trace
carries exactly one status request per input endpoint, in input order, so
one attempt is made per endpoint per scan and no failure escapes. -/
theorem status_check_absorbs_errors :
    (∀ ip, check_server ReqOutcome.netError ip = none) ∧
    (∀ ip status body, status ≠ 200 →
        check_server (ReqOutcome.response status body) ip = none) ∧
    (∀ ip, check_server (ReqOutcome.response 200 none) ip = none) ∧
    (∀ ip status (data : MCData), data.online = false →
        check_server (ReqOutcome.response status (some data)) ip = none) ∧
    (∀ o ip r, check_server o ip = some r → r.1 = ip ∧ r.2.online = true) ∧
    (∀ w ips, (scanEvents w ips).filterMap statusReqIp? = ips) := by
  refine ⟨fun ip => rfl, ?_, fun ip => by simp [check_server], ?_,
    check_server_eq_some, scanEvents_status_reqs⟩
  · intro ip status body h
    simp [check_server, h]
  · intro ip status data h
    by_cases hs : status = 200 <;> simp [check_server, hs, h]

/-- **C7** witness: the theorem applied at concrete failing outcomes and a
concrete scan. -/
theorem status_check_absorbs_errors_witness :
    check_server (ReqOutcome.response 500 none) "1.2.3.4" = none ∧
    check_server (ReqOutcome.response 200
      (some ⟨false, ⟨0, 0, []⟩, none, none⟩)) "1.2.3.4" = none ∧
    check_server ReqOutcome.netError "1.2.3.4" = none :=
  ⟨status_check_absorbs_errors.2.1 "1.2.3.4" 500 none (by decide),
   status_check_absorbs_errors.2.2.2.1 "1.2.3.4" 200
     ⟨false, ⟨0, 0, []⟩, none, none⟩ rfl,
   status_check_absorbs_errors.1 "1.2.3.4"⟩

/-! ## Aggregation and sorting (C4) -/

theorem occupancy_trans : ∀ a b c : FinalResult,
    (fun a b : FinalResult => decide (b.players ≤ a.players)) a b →
    (fun a b : FinalResult => decide (b.players ≤ a.players)) b c →
    (fun a b : FinalResult => decide (b.players ≤ a.players)) a c := by
  intro a b c hab hbc
  simp only [decide_eq_true_eq] at *
  omega

theorem occupancy_total : ∀ a b : FinalResult,
    (fun a b : FinalResult => decide (b.players ≤ a.players)) a b ||
    (fun a b : FinalResult => decide (b.players ≤ a.players)) b a := by
  intro a b
  simp only
  rcases Nat.le_total b.players a.players with h | h <;> simp [h]

theorem partition_length_sum (rs : List FinalResult) :
    (populatedOf rs).length + (emptyOf rs).length = rs.length := by
  induction rs with
  | nil => rfl
  | cons r rest ih =>
    simp only [populatedOf, emptyOf, List.filter_cons] at *
    cases hr : r.players with
    | zero => simp; omega
    | succ n => simp; omega

theorem sortPopulated_stable_filter (rs : List FinalResult) (v : Nat) :
    (sortPopulated rs).filter (fun r => r.players == v)
      = (populatedOf rs).filter (fun r => r.players == v) := by
  have hpair : ((populatedOf rs).filter (fun r => r.players == v)).Pairwise
      (fun a b : FinalResult => decide (b.players ≤ a.players)) := by
    apply List.pairwise_of_forall_mem_list
    intro a ha b hb
    have ha2 := (List.mem_filter.mp ha).2
    have hb2 := (List.mem_filter.mp hb).2
    simp only [beq_iff_eq] at ha2 hb2
    simp [ha2, hb2]
  have hsub : List.Sublist ((populatedOf rs).filter (fun r => r.players == v))
      (sortPopulated rs) :=
    List.sublist_mergeSort occupancy_trans occupancy_total hpair
      (List.filter_sublist _)
  have hsub2 : List.Sublist ((populatedOf rs).filter (fun r => r.players == v))
      ((sortPopulated rs).filter (fun r => r.players == v)) := by
    have h := hsub.filter (fun r => r.players == v)
    rwa [List.filter_eq_self.mpr
      (fun a ha => (List.mem_filter.mp ha).2)] at h
  have hperm : List.Perm ((sortPopulated rs).filter (fun r => r.players == v))
      ((populatedOf rs).filter (fun r => r.players == v)) :=
    (List.mergeSort_perm (populatedOf rs) _).filter _
  exact (hsub2.eq_of_length hperm.length_eq.symm).symm

/-- **C4**: the aggregator partitions results into populated (occupancy > 0)
and empty (occupancy = 0) with the lengths summing to the input; the sorted
populated list is a permutation of the populated partition, is descending by
occupancy, and is stable (for every occupancy value, the equal-occupancy
results appear exactly as in scan order); the empty partition is a sublist of
the input, keeping scan order. -/
theorem aggregator_partition_sorted_stable (rs : List FinalResult) :
    (∀ r, r ∈ populatedOf rs ↔ r ∈ rs ∧ 0 < r.players) ∧
    (∀ r, r ∈ emptyOf rs ↔ r ∈ rs ∧ r.players = 0) ∧
    (populatedOf rs).length + (emptyOf rs).length = rs.length ∧
    (sortPopulated rs).Perm (populatedOf rs) ∧
    (sortPopulated rs).Pairwise (fun a b => b.players ≤ a.players) ∧
    (∀ v : Nat, (sortPopulated rs).filter (fun r => r.players == v)
        = (populatedOf rs).filter (fun r => r.players == v)) ∧
    (emptyOf rs).Sublist rs := by
  refine ⟨?_, ?_, partition_length_sum rs, List.mergeSort_perm _ _, ?_,
    sortPopulated_stable_filter rs, List.filter_sublist _⟩
  · intro r
    simp [populatedOf, List.mem_filter]
  · intro r
    simp [emptyOf, List.mem_filter]
  · have h := List.sorted_mergeSort occupancy_trans occupancy_total
      (populatedOf rs)
    exact h.imp (fun hab => of_decide_eq_true hab)

/-! ## Geo batching (C5) -/

theorem chunksOf100_flatten (l : List String) : (chunksOf100 l).flatten = l := by
  rw [chunksOf100]
  split
  · simp [*]
  · rw [List.flatten_cons, chunksOf100_flatten (l.drop 100),
      List.take_append_drop]
termination_by l.length
decreasing_by
  simp only [List.length_drop]
  exact Nat.sub_lt (List.length_pos.mpr (by assumption)) (by omega)

theorem chunksOf100_sizes (l : List String) :
    ∀ c ∈ chunksOf100 l, c.length ≤ 100 := by
  intro c hc
  rw [chunksOf100] at hc
  split at hc
  · cases hc
  · rcases List.mem_cons.mp hc with rfl | hc
    · simp only [List.length_take]
      exact Nat.min_le_left _ _
    · exact chunksOf100_sizes (l.drop 100) c hc
termination_by l.length
decreasing_by
  simp only [List.length_drop]
  exact Nat.sub_lt (List.length_pos.mpr (by assumption)) (by omega)

theorem filterMap_geoReq_cons (c : List String) (tail : List Event) :
    List.filterMap geoReqBatch? (Event.geoRequest c :: tail)
      = c :: List.filterMap geoReqBatch? tail := rfl

theorem geoLoop_reqs (geo : Nat → GeoOutcome) (many : Bool) :
    ∀ (chunks : List (List String)) (i : Nat) (m : LocMap),
      ((geoLoop geo many chunks i m).1).filterMap geoReqBatch? = chunks := by
  intro chunks
  induction chunks with
  | nil => intro i m; simp [geoLoop]
  | cons c rest ih =>
    intro i m
    simp only [geoLoop, List.filterMap_append, geoBatchStep_fst,
      filterMap_geoReq_cons]
    have hnil : List.filterMap geoReqBatch?
        (if geoRaises (geo i) = false ∧ many = true
         then [Event.sleep 2000] else []) = [] := by
      split <;> rfl
    rw [hnil, ih]
    rfl

theorem batch_reqs (geo : Nat → GeoOutcome) (ips : List String) :
    ((batch_get_locations geo ips).1).filterMap geoReqBatch?
      = chunksOf100 ips := by
  by_cases h : ips = []
  · subst h
    rw [chunksOf100]
    simp [batch_get_locations]
  · simp only [batch_get_locations, if_neg h]
    exact geoLoop_reqs _ _ _ _ _

theorem chunksOf100_of_250 (l : List String) (h : l.length = 250) :
    chunksOf100 l
      = [l.take 100, (l.drop 100).take 100, (l.drop 100).drop 100] := by
  have h0 : l ≠ [] := by
    intro hc; rw [hc] at h; simp at h
  have h1 : l.drop 100 ≠ [] := by
    intro hc
    have hlen := congrArg List.length hc
    simp [List.length_drop, h] at hlen
  have h2 : (l.drop 100).drop 100 ≠ [] := by
    intro hc
    have hlen := congrArg List.length hc
    simp [List.length_drop, h] at hlen
  have h3 : ((l.drop 100).drop 100).drop 100 = [] := by
    apply List.eq_nil_of_length_eq_zero
    simp [List.length_drop, h]
  have h4 : ((l.drop 100).drop 100).take 100 = (l.drop 100).drop 100 := by
    apply List.take_of_length_le
    simp [List.length_drop, h]
  rw [chunksOf100, if_neg h0, chunksOf100, if_neg h1, chunksOf100, if_neg h2,
    h4, h3, chunksOf100, if_pos rfl]

theorem geoBatchStep_fst_ok (o : GeoOutcome) (c : List String) (m : LocMap)
    (h : geoRaises o = false) :
    (geoBatchStep true o c m).1 = [Event.geoRequest c, Event.sleep 2000] := by
  rw [geoBatchStep_fst, if_pos ⟨h, rfl⟩]

theorem batch_250_events (geo : Nat → GeoOutcome) (ips : List String)
    (h : ips.length = 250) (hok : ∀ i, geoRaises (geo i) = false) :
    (batch_get_locations geo ips).1 =
      [Event.geoRequest (ips.take 100), Event.sleep 2000,
       Event.geoRequest ((ips.drop 100).take 100), Event.sleep 2000,
       Event.geoRequest ((ips.drop 100).drop 100), Event.sleep 2000] := by
  have h0 : ips ≠ [] := by
    intro hc; rw [hc] at h; simp at h
  simp only [batch_get_locations, if_neg h0, chunksOf100_of_250 ips h]
  simp only [List.length_cons, List.length_nil]
  norm_num
  simp only [geoLoop, geoBatchStep_fst_ok _ _ _ (hok 0),
    geoBatchStep_fst_ok _ _ _ (hok 1), geoBatchStep_fst_ok _ _ _ (hok 2)]
  rfl

/-- **C5**: the geo enricher partitions the endpoint list into consecutive
batches of at most 100 (their concatenation is the input) and issues exactly
one bulk request per batch; an empty list yields the empty mapping with zero
requests; a 250-endpoint list yields exactly three batch requests of sizes
100, 100 and 50, each followed by the pacing delay (so a delay separates
consecutive requests). -/
theorem geo_batching_sizes_and_requests :
    (∀ geo : Nat → GeoOutcome, batch_get_locations geo [] = ([], [])) ∧
    (∀ ips : List String, (chunksOf100 ips).flatten = ips ∧
        ∀ c ∈ chunksOf100 ips, c.length ≤ 100) ∧
    (∀ (geo : Nat → GeoOutcome) (ips : List String),
        ((batch_get_locations geo ips).1).filterMap geoReqBatch?
          = chunksOf100 ips) ∧
    (∀ (geo : Nat → GeoOutcome) (ips : List String),
        ips.length = 250 → (∀ i, geoRaises (geo i) = false) →
        (batch_get_locations geo ips).1 =
          [Event.geoRequest (ips.take 100), Event.sleep 2000,
           Event.geoRequest ((ips.drop 100).take 100), Event.sleep 2000,
           Event.geoRequest ((ips.drop 100).drop 100), Event.sleep 2000] ∧
        (ips.take 100).length = 100 ∧ ((ips.drop 100).take 100).length = 100 ∧
        ((ips.drop 100).drop 100).length = 50) := by
  refine ⟨fun geo => rfl, fun ips => ⟨chunksOf100_flatten ips,
    chunksOf100_sizes ips⟩, batch_reqs, ?_⟩
  intro geo ips h hok
  refine ⟨batch_250_events geo ips h hok, ?_, ?_, ?_⟩ <;>
    simp [List.length_take, List.length_drop, h]

/-- **C5** witness: the theorem applied to the empty list and to a concrete
250-endpoint list with all batches succeeding. -/
theorem geo_batching_sizes_and_requests_witness :
    batch_get_locations (fun _ => GeoOutcome.response 200 (some [])) [] = ([], []) ∧
    (List.replicate 250 "x").length = 250 ∧
    (batch_get_locations (fun _ => GeoOutcome.response 200 (some []))
        (List.replicate 250 "x")).1 =
      [Event.geoRequest ((List.replicate 250 "x").take 100), Event.sleep 2000,
       Event.geoRequest (((List.replicate 250 "x").drop 100).take 100),
       Event.sleep 2000,
       Event.geoRequest (((List.replicate 250 "x").drop 100).drop 100),
       Event.sleep 2000] :=
  ⟨geo_batching_sizes_and_requests.1 (fun _ => GeoOutcome.response 200 (some [])),
   by rw [List.length_replicate],
   (geo_batching_sizes_and_requests.2.2.2
     (fun _ => GeoOutcome.response 200 (some [])) (List.replicate 250 "x")
     (by rw [List.length_replicate]) (fun i => rfl)).1⟩

/-! ## Geo failure isolation (C6) -/

/-- The entries a batch outcome contributes: only a 200 response with a
parseable body contributes anything; every failure contributes nothing. -/
def geoParsed : GeoOutcome → List GeoEntry
  | .response status (some entries) => if status = 200 then entries else []
  | _ => []

theorem geoBatchStep_snd (many : Bool) (o : GeoOutcome) (c : List String)
    (m : LocMap) :
    (geoBatchStep many o c m).2 = applyGeoEntries m (geoParsed o) := by
  cases o with
  | netError => rfl
  | response status body =>
    cases body with
    | none =>
      simp only [geoBatchStep, geoParsed]
      split <;> rfl
    | some entries =>
      simp only [geoBatchStep, geoParsed]
      by_cases hs : status = 200 <;> simp [hs, applyGeoEntries]

theorem dictSet_keys (m : LocMap) (k : String) (v : Option String) :
    ∀ k' ∈ (dictSet m k v).map Prod.fst, k' ∈ m.map Prod.fst ∨ k' = k := by
  intro k' hk
  unfold dictSet at hk
  split at hk
  · rw [List.map_map] at hk
    obtain ⟨p, hp, hpe⟩ := List.mem_map.mp hk
    by_cases hc : p.1 == k
    · right
      rw [show (Prod.fst ∘ fun p : String × Option String =>
        if p.1 == k then (k, v) else p) p = if p.1 == k then k else p.1 by
          simp [Function.comp]; split <;> rfl, if_pos hc] at hpe
      exact hpe.symm
    · left
      rw [show (Prod.fst ∘ fun p : String × Option String =>
        if p.1 == k then (k, v) else p) p = if p.1 == k then k else p.1 by
          simp [Function.comp]; split <;> rfl, if_neg hc] at hpe
      exact hpe ▸ List.mem_map_of_mem Prod.fst hp
  · rw [List.map_append] at hk
    rcases List.mem_append.mp hk with hk | hk
    · exact Or.inl hk
    · right
      simpa using hk

theorem applyGeoEntries_keys :
    ∀ (entries : List GeoEntry) (m : LocMap),
      ∀ k ∈ (applyGeoEntries m entries).map Prod.fst,
        k ∈ m.map Prod.fst ∨ ∃ e ∈ entries, e.query = some k := by
  intro entries
  induction entries with
  | nil => intro m k hk; exact Or.inl hk
  | cons e rest ih =>
    intro m k hk
    rw [show applyGeoEntries m (e :: rest)
        = applyGeoEntries (match e.query with
            | some ip => if ip = "" then m else dictSet m ip e.countryCode
            | none => m) rest from rfl] at hk
    rcases ih _ k hk with hk2 | ⟨e2, he2, hq2⟩
    · cases hq : e.query with
      | none => rw [hq] at hk2; exact Or.inl hk2
      | some ip =>
        rw [hq] at hk2
        rw [show (match some ip with
            | some ip => if ip = "" then m else dictSet m ip e.countryCode
            | none => m)
            = if ip = "" then m else dictSet m ip e.countryCode from rfl] at hk2
        by_cases hip : ip = ""
        · rw [if_pos hip] at hk2; exact Or.inl hk2
        · rw [if_neg hip] at hk2
          rcases dictSet_keys m ip e.countryCode k hk2 with hk3 | rfl
          · exact Or.inl hk3
          · exact Or.inr ⟨e, List.mem_cons_self _ _, hq⟩
    · exact Or.inr ⟨e2, List.mem_cons_of_mem _ he2, hq2⟩

theorem geoLoop_keys (geo : Nat → GeoOutcome) (many : Bool) :
    ∀ (chunks : List (List String)) (i : Nat) (m : LocMap),
      ∀ k ∈ ((geoLoop geo many chunks i m).2).map Prod.fst,
        k ∈ m.map Prod.fst ∨ ∃ j, ∃ e ∈ geoParsed (geo j), e.query = some k := by
  intro chunks
  induction chunks with
  | nil => intro i m k hk; exact Or.inl hk
  | cons c rest ih =>
    intro i m k hk
    rw [show (geoLoop geo many (c :: rest) i m).2
        = (geoLoop geo many rest (i + 1) (geoBatchStep many (geo i) c m).2).2
        from rfl] at hk
    rcases ih (i + 1) _ k hk with hk2 | hj
    · rw [geoBatchStep_snd] at hk2
      rcases applyGeoEntries_keys _ m k hk2 with hk3 | ⟨e, he, hq⟩
      · exact Or.inl hk3
      · exact Or.inr ⟨i, e, he, hq⟩
    · exact Or.inr hj

theorem batch_keys (geo : Nat → GeoOutcome) (ips : List String) :
    ∀ k ∈ ((batch_get_locations geo ips).2).map Prod.fst,
      ∃ j, ∃ e ∈ geoParsed (geo j), e.query = some k := by
  intro k hk
  by_cases h : ips = []
  · simp [batch_get_locations, h] at hk
  · simp only [batch_get_locations, if_neg h] at hk
    rcases geoLoop_keys geo _ _ 0 [] k hk with hk2 | hj
    · simp at hk2
    · exact hj

theorem dictGet_eq_none (m : LocMap) (k : String)
    (h : k ∉ m.map Prod.fst) : dictGet m k = none := by
  unfold dictGet
  rw [List.find?_eq_none.mpr]
  intro p hp
  simp only [beq_iff_eq]
  intro hc
  exact h (hc ▸ List.mem_map_of_mem Prod.fst hp)

theorem mkResult_text (locMap : LocMap) (s : String × MCData) :
    (mkResult locMap s).text
      = get_flag_emoji (dictGet locMap s.1) ++ " **" ++ s.1
        ++ "** | Players: " ++ toString s.2.players.online ++ "/"
        ++ toString s.2.players.max ++ " | Ver: "
        ++ s.2.version_name_clean.getD "Unknown" := rfl

/-- **C6**: one POST is attempted for every batch regardless of other
batches' failures; every key of the returned mapping comes from a parsed
200 response (so endpoints whose batches failed are absent); an endpoint
mentioned in no successful response reads back as absent, which at render
time produces the unknown-location flag; and the merge step keeps every
live result whatever the mapping contains — no live server is lost. -/
theorem geo_batch_failure_isolation :
    (∀ (geo : Nat → GeoOutcome) (ips : List String),
        ((batch_get_locations geo ips).1).filterMap geoReqBatch?
          = chunksOf100 ips) ∧
    (∀ (geo : Nat → GeoOutcome) (ips : List String),
        ∀ k ∈ ((batch_get_locations geo ips).2).map Prod.fst,
          ∃ j, ∃ e ∈ geoParsed (geo j), e.query = some k) ∧
    (∀ (geo : Nat → GeoOutcome) (ips : List String) (k : String),
        (∀ j, ∀ e ∈ geoParsed (geo j), e.query ≠ some k) →
        dictGet (batch_get_locations geo ips).2 k = none) ∧
    (∀ (locMap : LocMap) (valid : List (String × MCData)),
        (valid.map (mkResult locMap)).map FinalResult.ip
          = valid.map Prod.fst) ∧
    (∀ (locMap : LocMap) (s : String × MCData),
        dictGet locMap s.1 = none →
        get_flag_emoji (dictGet locMap s.1) = "🏳️" ∧
        (mkResult locMap s).text
          = "🏳️" ++ (" **" ++ s.1 ++ "** | Players: "
            ++ toString s.2.players.online ++ "/"
            ++ toString s.2.players.max ++ " | Ver: "
            ++ s.2.version_name_clean.getD "Unknown")) := by
  refine ⟨batch_reqs, batch_keys, ?_, ?_, ?_⟩
  · intro geo ips k h
    apply dictGet_eq_none
    intro hk
    obtain ⟨j, e, he, hq⟩ := batch_keys geo ips k hk
    exact h j e he hq
  · intro locMap valid
    rw [List.map_map]
    rfl
  · intro locMap s h
    refine ⟨by rw [h]; rfl, ?_⟩
    rw [mkResult_text, h]
    rw [show get_flag_emoji none = "🏳️" from rfl]
    simp only [String.append_assoc]

/-- **C6** witness: the theorem applied to a geo oracle whose only batch
fails, over one live endpoint — the endpoint is absent from the mapping, the
flag degrades to the placeholder, and the result is still rendered. -/
theorem geo_batch_failure_isolation_witness :
    (∀ j, ∀ e ∈ geoParsed ((fun _ : Nat => GeoOutcome.netError) j),
        e.query ≠ some "9.9.9.9") ∧
    dictGet (batch_get_locations (fun _ : Nat => GeoOutcome.netError)
      ["9.9.9.9"]).2 "9.9.9.9" = none :=
  ⟨fun _ e he => absurd he (List.not_mem_nil e),
   geo_batch_failure_isolation.2.2.1 (fun _ : Nat => GeoOutcome.netError)
     ["9.9.9.9"] "9.9.9.9"
     (fun _ e he => absurd he (List.not_mem_nil e))⟩

/-! ## Live-result bounds (C9) -/

theorem valid_servers_fst_sublist (probe : String → ReqOutcome) :
    ∀ ips : List String,
      List.Sublist ((valid_servers probe ips).map Prod.fst) ips := by
  intro ips
  induction ips with
  | nil => simp [valid_servers]
  | cons ip rest ih =>
    have hstep : valid_servers probe (ip :: rest)
        = (check_server (probe ip) ip :: (rest.map
            (fun x => check_server (probe x) x))).filterMap id := rfl
    cases hc : check_server (probe ip) ip with
    | none =>
      rw [hstep, List.filterMap_cons]
      simp only [hc, id]
      exact ih.cons ip
    | some r =>
      rw [hstep, List.filterMap_cons]
      simp only [hc, id, List.map_cons]
      rw [(check_server_eq_some _ _ _ hc).1]
      exact ih.cons₂ ip

theorem final_results_ips (w : World) (ips : List String) :
    (final_results w ips).map FinalResult.ip
      = (valid_servers w.probe ips).map Prod.fst := by
  simp only [final_results]
  rw [List.map_map]
  rfl

/-- **C9**: the number of enriched results never exceeds the number of input
endpoints, every result's endpoint is a member of the input list, and when
the input endpoints are unique (as one scan's input is) no endpoint appears
twice among the results. -/
theorem live_results_bounded_members_nodup :
    (∀ (w : World) (ips : List String),
        (final_results w ips).length ≤ ips.length) ∧
    (∀ (w : World) (ips : List String),
        ∀ r ∈ final_results w ips, r.ip ∈ ips) ∧
    (∀ (w : World) (ips : List String), ips.Nodup →
        ((final_results w ips).map FinalResult.ip).Nodup) := by
  refine ⟨?_, ?_, ?_⟩
  · intro w ips
    have h := (valid_servers_fst_sublist w.probe ips).length_le
    calc (final_results w ips).length
        = ((final_results w ips).map FinalResult.ip).length :=
          (List.length_map _ _).symm
      _ = ((valid_servers w.probe ips).map Prod.fst).length := by
          rw [final_results_ips]
      _ ≤ ips.length := h
  · intro w ips r hr
    have hm : r.ip ∈ (final_results w ips).map FinalResult.ip :=
      List.mem_map_of_mem _ hr
    rw [final_results_ips] at hm
    exact (valid_servers_fst_sublist w.probe ips).subset hm
  · intro w ips h
    rw [final_results_ips]
    exact (valid_servers_fst_sublist w.probe ips).nodup h

/-- **C9** witness: the theorem applied to a concrete two-endpoint scan whose
probes both come back live. -/
theorem live_results_bounded_members_nodup_witness :
    (["1.1.1.1", "2.2.2.2"] : List String).Nodup ∧
    ((final_results
        ⟨fun _ => ReqOutcome.response 200
            (some ⟨true, ⟨3, 10, []⟩, none, none⟩),
          fun _ => GeoOutcome.netError, "0m 1s", "2.00"⟩
        ["1.1.1.1", "2.2.2.2"]).map FinalResult.ip).Nodup :=
  ⟨by decide,
   live_results_bounded_members_nodup.2.2
     ⟨fun _ => ReqOutcome.response 200 (some ⟨true, ⟨3, 10, []⟩, none, none⟩),
       fun _ => GeoOutcome.netError, "0m 1s", "2.00"⟩
     ["1.1.1.1", "2.2.2.2"] (by decide)⟩

/-! ## Single-flight gate and input validation (C1) -/

/-- Lock traffic: an acquisition or release of the single-flight gate. -/
def isLockEvent : Event → Bool
  | .acquire => true
  | .release => true
  | _ => false

theorem dispatchEvents_no_lock (total : Nat) :
    ∀ (ips : List String) (i : Nat),
      ∀ e ∈ dispatchEvents total i ips, isLockEvent e = false := by
  intro ips
  induction ips with
  | nil => intro i e he; simp [dispatchEvents] at he
  | cons ip rest ih =>
    intro i e he
    simp only [dispatchEvents] at he
    by_cases h : i % 50 = 0
    · rw [if_pos h] at he
      simp only [List.append_eq, List.cons_append, List.nil_append,
        List.singleton_append, List.mem_cons] at he
      rcases he with rfl | rfl | rfl | he
      · rfl
      · rfl
      · rfl
      · exact ih (i + 1) e he
    · rw [if_neg h] at he
      simp only [List.append_eq, List.cons_append, List.nil_append,
        List.singleton_append, List.mem_cons] at he
      rcases he with rfl | rfl | he
      · rfl
      · rfl
      · exact ih (i + 1) e he

theorem scanEvents_no_lock (w : World) (ips : List String) :
    ∀ e ∈ scanEvents w ips, isLockEvent e = false := by
  intro e he
  simp only [scanEvents] at he
  rcases List.mem_append.mp he with he | hf
  swap
  · rw [List.mem_singleton.mp hf]
    rfl
  rcases List.mem_append.mp he with he | hout
  swap
  · obtain ⟨m, rfl⟩ := outputEvents_sends _ _ _ e hout
    rfl
  rcases List.mem_append.mp he with he | hgeo
  swap
  · rcases batch_events_kinds _ _ e hgeo with ⟨b, rfl⟩ | ⟨ms, rfl⟩ <;> rfl
  rcases List.mem_append.mp he with he | hp
  swap
  · rcases List.mem_cons.mp hp with rfl | hp
    · rfl
    · rw [List.mem_singleton.mp hp]
      rfl
  rcases List.mem_append.mp he with hs | hd
  · rw [List.mem_singleton.mp hs]
    rfl
  · exact dispatchEvents_no_lock _ _ _ e hd

theorem checkBody_cases (w : World) (msg : Msg) :
    (∃ m, m ∈ validationErrorMsgs ∧ checkBody w msg = [Event.send m]) ∨
    (∃ ips, ips ≠ [] ∧ checkBody w msg = scanEvents w ips) := by
  obtain ⟨atts⟩ := msg
  cases atts with
  | nil =>
    exact Or.inl ⟨"❌ Please attach a `.txt` file.",
      by simp [validationErrorMsgs], rfl⟩
  | cons a rest =>
    by_cases hf : a.filename.endsWith ".txt"
    · cases hc : a.content with
      | none =>
        refine Or.inl ⟨"❌ Error reading file: <exception>",
          by simp [validationErrorMsgs], ?_⟩
        simp [checkBody, hf, hc]
      | some c =>
        by_cases hp : parseIps c = []
        · refine Or.inl ⟨"⚠️ File is empty.",
            by simp [validationErrorMsgs], ?_⟩
          simp [checkBody, hf, hc, hp]
        · refine Or.inr ⟨parseIps c, hp, ?_⟩
          simp [checkBody, hf, hc, hp]
    · refine Or.inl ⟨"❌ Must be a `.txt` file.",
        by simp [validationErrorMsgs], ?_⟩
      simp [checkBody, hf]

theorem checkBody_no_lock (w : World) (msg : Msg) :
    ∀ e ∈ checkBody w msg, isLockEvent e = false := by
  intro e he
  rcases checkBody_cases w msg with ⟨m, _, hm⟩ | ⟨ips, _, hm⟩
  · rw [hm] at he
    rw [List.mem_singleton.mp he]
    rfl
  · rw [hm] at he
    exact scanEvents_no_lock w ips e he

theorem checkBody_invalid (w : World) (msg : Msg) (h : InvalidInput msg) :
    ∃ m, m ∈ validationErrorMsgs ∧ checkBody w msg = [Event.send m] := by
  obtain ⟨atts⟩ := msg
  rcases h with hnil | ⟨a, rest, hmsg, hcase⟩
  · rw [show atts = [] from hnil]
    exact ⟨"❌ Please attach a `.txt` file.",
      by simp [validationErrorMsgs], rfl⟩
  · rw [show atts = a :: rest from hmsg]
    by_cases hf : a.filename.endsWith ".txt"
    · rcases hcase with hc | hc | ⟨c, hc, hp⟩
      · exact absurd hf hc
      · refine ⟨"❌ Error reading file: <exception>",
          by simp [validationErrorMsgs], ?_⟩
        simp [checkBody, hf, hc]
      · refine ⟨"⚠️ File is empty.", by simp [validationErrorMsgs], ?_⟩
        simp [checkBody, hf, hc, hp]
    · exact ⟨"❌ Must be a `.txt` file.", by simp [validationErrorMsgs],
        by simp [checkBody, hf]⟩

/-- **C1** (amended): on every invalid-input invocation the command reports a
validation error, performs no network activity, and — unlike the claim's
"gate never acquired" — does acquire the single-flight gate before
validating; on every invocation (valid or not) acquisitions and releases
balance, because the gate is released on every exit path, so a later scan is
never permanently blocked. -/
theorem invalid_input_aborts_and_gate_released :
    (∀ (w : World) (msg : Msg), InvalidInput msg →
      (∀ e ∈ check false w msg, isNetworkEvent e = false) ∧
      (∃ m, m ∈ validationErrorMsgs ∧ Event.send m ∈ check false w msg) ∧
      Event.acquire ∈ check false w msg ∧
      Event.release ∈ check false w msg) ∧
    (∀ (locked : Bool) (w : World) (msg : Msg),
      (check locked w msg).count Event.acquire
        = (check locked w msg).count Event.release) := by
  constructor
  · intro w msg h
    obtain ⟨m, hm, hbody⟩ := checkBody_invalid w msg h
    have hck : check false w msg = [Event.acquire, Event.send m, Event.release] := by
      simp [check, hbody]
    rw [hck]
    refine ⟨?_, ⟨m, hm, by simp⟩, by simp, by simp⟩
    intro e he
    rcases List.mem_cons.mp he with rfl | he
    · rfl
    · rcases List.mem_cons.mp he with rfl | he
      · rfl
      · rw [List.mem_singleton.mp he]
        rfl
  · intro locked w msg
    cases locked with
    | true => rfl
    | false =>
      have hbody : ∀ e ∈ checkBody w msg, isLockEvent e = false :=
        checkBody_no_lock w msg
      have hacq : Event.acquire ∉ checkBody w msg := by
        intro hmem
        have := hbody _ hmem
        simp [isLockEvent] at this
      have hrel : Event.release ∉ checkBody w msg := by
        intro hmem
        have := hbody _ hmem
        simp [isLockEvent] at this
      have hc : check false w msg
          = Event.acquire :: (checkBody w msg ++ [Event.release]) := rfl
      rw [hc]
      simp only [List.count_cons, List.count_append]
      rw [List.count_eq_zero.mpr hacq, List.count_eq_zero.mpr hrel]
      simp

/-- **C1** witness: the amended theorem applied to the no-attachment
invocation of the command. -/
theorem invalid_input_aborts_and_gate_released_witness :
    InvalidInput ⟨[]⟩ ∧
    ((∀ e ∈ check false
        ⟨fun _ => ReqOutcome.netError, fun _ => GeoOutcome.netError, "", ""⟩
        ⟨[]⟩, isNetworkEvent e = false) ∧
     (∃ m, m ∈ validationErrorMsgs ∧ Event.send m ∈ check false
        ⟨fun _ => ReqOutcome.netError, fun _ => GeoOutcome.netError, "", ""⟩
        ⟨[]⟩) ∧
     Event.acquire ∈ check false
        ⟨fun _ => ReqOutcome.netError, fun _ => GeoOutcome.netError, "", ""⟩
        ⟨[]⟩ ∧
     Event.release ∈ check false
        ⟨fun _ => ReqOutcome.netError, fun _ => GeoOutcome.netError, "", ""⟩
        ⟨[]⟩) :=
  ⟨Or.inl rfl,
   invalid_input_aborts_and_gate_released.1
     ⟨fun _ => ReqOutcome.netError, fun _ => GeoOutcome.netError, "", ""⟩
     ⟨[]⟩ (Or.inl rfl)⟩

/-- **C1** counterexample: on the no-attachment (invalid) invocation the
single-flight gate IS acquired — `async with scan_lock:` wraps the input
validation — refuting the claim that the gate is never acquired during an
invalid-input invocation. -/
theorem gate_acquired_on_invalid_input_counterexample :
    InvalidInput ⟨[]⟩ ∧
    Event.acquire ∈ check false
      ⟨fun _ => ReqOutcome.netError, fun _ => GeoOutcome.netError, "", ""⟩
      ⟨[]⟩ :=
  ⟨Or.inl rfl, by simp [check]⟩

end Scanbot
